import Mathlib

/-!
CryptoMiniSat: the C wrapper (`cmsat_c.h`, `cmsat_c.cpp`) and the bookkeeping
types of the failed-literal searcher (`FailedLitSearcher.h`).

A shallow embedding of the wrapper functions and of the `Stats` and
`TwoLongXor` classes, followed by the properties proved about them.

Conventions: a C `uint32_t`/`uint64_t`/`uint8_t` is a `Nat`, with an explicit
`% 2 ^ w` wherever the C operation can wrap; a C `int`/`int32_t`/`int8_t` and
the two enums are an `Int`; reading a C array outside its bounds has no
defined result and is modelled by `none`.
-/

namespace CMSat

/-! ## cmsat_c.h : literal constructors -/

/-- Integral conversion of a C `bool` (false is 0, true is 1). -/
def boolToNat (b : Bool) : Nat := if b then 1 else 0

/-- The function `cmsat_lit` of cmsat_c.h: `return var + var + is_inverted;`
on `uint32_t`, each addition wrapping modulo 2^32. -/
def cmsat_lit (var : Nat) (is_inverted : Bool) : Nat :=
  ((var + var) % 2 ^ 32 + boolToNat is_inverted) % 2 ^ 32

/-- The function `cmsat_pos` of cmsat_c.h: `return cmsat_lit(var, false);` -/
def cmsat_pos (var : Nat) : Nat := cmsat_lit var false

/-- The function `cmsat_neg` of cmsat_c.h: `return cmsat_lit(var, true);` -/
def cmsat_neg (var : Nat) : Nat := cmsat_lit var true

/-! ## cmsat_c.h : the two enums -/

/-- Enumerator `CMSAT_UNKNOWN = 0` of `cmsat_status`. -/
def CMSAT_UNKNOWN : Int := 0
/-- Enumerator `CMSAT_SAT = 10` of `cmsat_status`. -/
def CMSAT_SAT : Int := 10
/-- Enumerator `CMSAT_UNSAT = 20` of `cmsat_status`. -/
def CMSAT_UNSAT : Int := 20

/-- Enumerator `CMSAT_VAL_UNKNOWN = -1` of `cmsat_value`. -/
def CMSAT_VAL_UNKNOWN : Int := -1
/-- Enumerator `CMSAT_VAL_FALSE = 0` of `cmsat_value`. -/
def CMSAT_VAL_FALSE : Int := 0
/-- Enumerator `CMSAT_VAL_TRUE = 1` of `cmsat_value`. -/
def CMSAT_VAL_TRUE : Int := 1

/-! ## Types of cryptominisat.h used by the wrapper -/

/-- Modelled from the spec: the class `Lit` of cryptominisat5/cryptominisat.h,
which cmsat_c.cpp uses through `Lit::toLit`, `var()`, `sign()` and `toInt()`
and whose declaration is not among the available sources. A literal is "a
variable identifier plus a polarity sign"; the layout is the one the comment
of `cmsat_add_clause` in cmsat_c.h documents: a 32-bit unsigned integer whose
lower-order bit is the sign (0 positive, 1 negative) and whose other bits are
the variable index. -/
structure Lit where
  x : Nat
deriving DecidableEq, Repr

/-- `Lit::toLit(data)`: the literal whose integer encoding is `data`. -/
def Lit.toLit (data : Nat) : Lit := ⟨data⟩

/-- `Lit::toInt()`: the integer encoding. -/
def Lit.toInt (l : Lit) : Nat := l.x

/-- `Lit::sign()`: the lower-order bit, `x & 1`. -/
def Lit.sign (l : Lit) : Bool := (l.x &&& 1) != 0

/-- `Lit::var()`: the other bits, `x >> 1`. -/
def Lit.var (l : Lit) : Nat := l.x >>> 1

/-- Modelled from the spec: the class `lbool` of cryptominisat5/cryptominisat.h,
whose declaration is not among the available sources. It wraps one `uint8_t`;
cmsat_c.cpp documents the encoding next to its tables (`l_True = 0`,
`l_False = 1`, `l_Undef = 2`) and reads the byte with `getValue()`. -/
structure lbool where
  value : Nat
deriving DecidableEq, Repr

/-- The constant `l_True`. -/
def l_True : lbool := ⟨0⟩
/-- The constant `l_False`. -/
def l_False : lbool := ⟨1⟩
/-- The constant `l_Undef`. -/
def l_Undef : lbool := ⟨2⟩

/-- `lbool::getValue()`: the raw byte. -/
def lbool.getValue (b : lbool) : Nat := b.value

/-- Modelled from the spec: `lbool::operator==` (declared with the class, not
among the available sources): two values are equal when both are undefined
(bit 1 set) or when neither is and the bytes agree,
`((b.value & 2) & (value & 2)) | (!(b.value & 2) & (value == b.value))`. -/
def lbool.eq (a b : lbool) : Bool :=
  (((b.value &&& 2) &&& (a.value &&& 2)) |||
    (boolToNat ((b.value &&& 2) == 0) &&& boolToNat (a.value == b.value))) != 0

/-- Modelled from the spec: `lbool::operator^(bool)` (declared with the class,
not among the available sources): the byte xor-ed with the flag, which swaps
`l_True` and `l_False`. -/
def lbool.xor (a : lbool) (b : Bool) : lbool := ⟨a.value ^^^ boolToNat b⟩

/-! ## cmsat_c.cpp : conversion tables -/

/-- The table `lbool_to_status[3]` of cmsat_c.cpp. -/
def lbool_to_status : List Int := [CMSAT_SAT, CMSAT_UNSAT, CMSAT_UNKNOWN]

/-- The function `lbool2status` of cmsat_c.cpp:
`uint8_t i = b.getValue(); return i < 3 ? lbool_to_status[i] : CMSAT_UNKNOWN;`.
The table read is `none` outside the table. -/
def lbool2status (b : lbool) : Option Int :=
  let i := b.getValue
  if i < 3 then lbool_to_status[i]? else some CMSAT_UNKNOWN

/-- The table `lbool_to_value[3]` of cmsat_c.cpp. -/
def lbool_to_value : List Int := [CMSAT_VAL_TRUE, CMSAT_VAL_FALSE, CMSAT_VAL_UNKNOWN]

/-- The function `lbool2value` of cmsat_c.cpp:
`uint8_t i = b.getValue(); return i < 3 ? lbool_to_value[i] : CMSAT_VAL_UNKNOWN;`.
The table read is `none` outside the table. -/
def lbool2value (b : lbool) : Option Int :=
  let i := b.getValue
  if i < 3 then lbool_to_value[i]? else some CMSAT_VAL_UNKNOWN

/-! ## cmsat_c.cpp : the solver object and the wrapped calls -/

/-- The member functions of `SATSolver` (cryptominisat.h) that the wrapper
calls, over an arbitrary solver state `σ`: each takes the state and returns the
new state with the call's result. The solver itself is an external
collaborator; every statement below holds for all such functions. -/
structure SATSolver (σ : Type) where
  add_clause : σ → List Lit → σ × Bool
  add_xor_clause : σ → List Nat → Bool → σ × Bool
  solve : σ → Option (List Lit) → σ × lbool
  get_model : σ → List lbool

/-- The struct `cmsat_solver` of cmsat_c.cpp. -/
structure cmsat_solver (σ : Type) where
  solver : σ
  lit_buffer : List Lit
  var_buffer : List Nat

/-- The function `cmsat_solve` of cmsat_c.cpp:
`return lbool2status(s->solver.solve());` -/
def cmsat_solve {σ : Type} (S : SATSolver σ) (s : cmsat_solver σ) :
    cmsat_solver σ × Option Int :=
  let r := S.solve s.solver none
  ({ s with solver := r.1 }, lbool2status r.2)

/-- The function `build_lit_array` of cmsat_c.cpp: `s->lit_buffer.clear();`
then, for `i = 0 .. n-1`, `s->lit_buffer.push_back(Lit::toLit(a[i]));`.
The array `a` is the list of its elements; reading `a[i]` past its end is
`none`. -/
def build_lit_array {σ : Type} (s : cmsat_solver σ) (a : List Nat) (n : Nat) :
    Option (cmsat_solver σ) :=
  (List.range n).foldlM
    (fun st i => (a[i]?).map fun v => { st with lit_buffer := st.lit_buffer ++ [Lit.toLit v] })
    { s with lit_buffer := [] }

/-- The function `build_var_array` of cmsat_c.cpp: `s->var_buffer.clear();`
then, for `i = 0 .. n-1`, `s->var_buffer.push_back(a[i]);`. -/
def build_var_array {σ : Type} (s : cmsat_solver σ) (a : List Nat) (n : Nat) :
    Option (cmsat_solver σ) :=
  (List.range n).foldlM
    (fun st i => (a[i]?).map fun v => { st with var_buffer := st.var_buffer ++ [v] })
    { s with var_buffer := [] }

/-- The function `cmsat_add_clause` of cmsat_c.cpp: `build_lit_array(s, a, n);
return s->solver.add_clause(s->lit_buffer) - 1;` (the `bool` is promoted to
`int` before the subtraction). The result is the solver object after the call
and the returned `int32_t`. -/
def cmsat_add_clause {σ : Type} (S : SATSolver σ) (s : cmsat_solver σ) (a : List Nat) (n : Nat) :
    Option (cmsat_solver σ × Int) :=
  (build_lit_array s a n).map fun s1 =>
    let r := S.add_clause s1.solver s1.lit_buffer
    ({ s1 with solver := r.1 }, (boolToNat r.2 : Int) - 1)

/-- The function `cmsat_add_xor_clause` of cmsat_c.cpp: `build_var_array(s, a, n);
return s->solver.add_xor_clause(s->var_buffer, rhs) - 1;` -/
def cmsat_add_xor_clause {σ : Type} (S : SATSolver σ) (s : cmsat_solver σ) (a : List Nat)
    (n : Nat) (rhs : Bool) : Option (cmsat_solver σ × Int) :=
  (build_var_array s a n).map fun s1 =>
    let r := S.add_xor_clause s1.solver s1.var_buffer rhs
    ({ s1 with solver := r.1 }, (boolToNat r.2 : Int) - 1)

/-- The function `cmsat_solve_with_assumptions` of cmsat_c.cpp:
`build_lit_array(s, a, n); return lbool2status(s->solver.solve(&s->lit_buffer));` -/
def cmsat_solve_with_assumptions {σ : Type} (S : SATSolver σ) (s : cmsat_solver σ)
    (a : List Nat) (n : Nat) : Option (cmsat_solver σ × Option Int) :=
  (build_lit_array s a n).map fun s1 =>
    let r := S.solve s1.solver (some s1.lit_buffer)
    ({ s1 with solver := r.1 }, lbool2status r.2)

/-- The function `cmsat_var_value` of cmsat_c.cpp:
`model = s->solver.get_model(); return lbool2value(model[x]);`.
Reading `model[x]` outside the model is `none`. -/
def cmsat_var_value {σ : Type} (S : SATSolver σ) (s : cmsat_solver σ) (x : Nat) : Option Int :=
  let model := S.get_model s.solver
  (model[x]?).bind fun b => lbool2value b

/-- The function `cmsat_lit_value` of cmsat_c.cpp:
`Lit lit = Lit::toLit(l); x = lit.var(); model = s->solver.get_model();
if (model[x] == l_Undef) return CMSAT_VAL_UNKNOWN;
return lbool2value(model[x] ^ lit.sign());` -/
def cmsat_lit_value {σ : Type} (S : SATSolver σ) (s : cmsat_solver σ) (l : Nat) : Option Int :=
  let lit := Lit.toLit l
  let x := lit.var
  let model := S.get_model s.solver
  (model[x]?).bind fun b =>
    if b.eq l_Undef then some CMSAT_VAL_UNKNOWN
    else lbool2value (b.xor lit.sign)

/-- The struct `cmsat_val_vector` of cmsat_c.h: `val` is the array the pointer
refers to, `nvals` the stored count. -/
structure cmsat_val_vector where
  val : List Int
  nvals : Nat
deriving DecidableEq, Repr

/-- Conversion of an `int` to `int8_t` (two's complement, modulo 2^8). -/
def toInt8 (v : Int) : Int := (v + 128) % 256 - 128

/-- The function `cmsat_get_model` of cmsat_c.cpp:
`model = s->solver.get_model(); uint32_t n = model.size(); m->nvals = n;
m->val = new int8_t[n]; for (i = 0 .. n-1) m->val[i] = lbool2value(model[i]);`.
The fresh array holds `n` cells (shown as 0 before they are written); a read
or a write outside an array is `none`. -/
def cmsat_get_model {σ : Type} (S : SATSolver σ) (s : cmsat_solver σ) (m : cmsat_val_vector) :
    Option cmsat_val_vector :=
  let model := S.get_model s.solver
  let n := model.length % 2 ^ 32
  let m1 := { m with nvals := n }
  let m2 := { m1 with val := List.replicate n 0 }
  (List.range n).foldlM
    (fun mv i =>
      (model[i]?).bind fun b =>
      (lbool2value b).bind fun v =>
        if i < mv.val.length then some { mv with val := mv.val.set i (toInt8 v) } else none)
    m2

/-! ## The C++ type `double` -/

/-- A C++ `double`: an IEEE 754 binary64 value given by its three bit fields,
the sign bit, the 11-bit biased exponent `expo` (0 .. 2047) and the 52-bit
fraction `frac`. `expo = 2047` is an infinity (`frac = 0`) or a NaN; `expo = 0`
is a zero or a subnormal number. -/
structure Double where
  sign : Bool
  expo : Nat
  frac : Nat
deriving DecidableEq, Repr

/-- The value `0` converted to `double`: positive zero. -/
def Double.zero : Double := ⟨false, 0, 0⟩

/-- The quiet NaN an invalid or NaN-fed operation produces (its sign and
payload are not modelled further). -/
def Double.qNaN : Double := ⟨false, 2047, 2 ^ 51⟩

/-- Test for a NaN. -/
def Double.isNaN (x : Double) : Bool := x.expo == 2047 && x.frac != 0

/-- Test for an infinity. -/
def Double.isInf (x : Double) : Bool := x.expo == 2047 && x.frac == 0

/-- Significand of a finite value, with the implicit leading bit of a normal
number made explicit. -/
def Double.sig (x : Double) : Nat := if x.expo = 0 then x.frac else 2 ^ 52 + x.frac

/-- Exponent of a finite value: its magnitude is `sig * 2 ^ (ex - 1075)`. -/
def Double.ex (x : Double) : Nat := if x.expo = 0 then 1 else x.expo

/-- Number of binary digits of `n`, at most `fuel` of them. -/
def bitLengthAux : Nat → Nat → Nat
  | 0, _ => 0
  | fuel + 1, n => if n = 0 then 0 else bitLengthAux fuel (n / 2) + 1

/-- Number of binary digits of `n` (for `n < 2 ^ 4096`, which covers every
sum of two aligned significands). -/
def bitLength (n : Nat) : Nat := bitLengthAux 4096 n

/-- Rounding to nearest, ties to even, of the magnitude `N * 2 ^ (e0 - 1075)`
(`0 < N`, `1 ≤ e0`) with sign `s`: a magnitude of at most 53 digits is exact and
only normalised, a longer one loses its low `k` digits, is rounded up when the
lost part is more than half a unit or exactly half with an odd kept part, and
overflows to infinity. -/
def Double.round (s : Bool) (N e0 : Nat) : Double :=
  let L := bitLength N
  if L ≤ 53 then
    let d := min (53 - L) (e0 - 1)
    let N1 := N * 2 ^ d
    if 2 ^ 52 ≤ N1 then ⟨s, e0 - d, N1 - 2 ^ 52⟩ else ⟨s, 0, N1⟩
  else
    let k := L - 53
    let q := N / 2 ^ k
    let r := N % 2 ^ k
    let up : Bool := decide (2 ^ k < 2 * r) || (decide (2 * r = 2 ^ k) && decide (q % 2 = 1))
    let q1 := if up then q + 1 else q
    let e1 := if q1 = 2 ^ 53 then e0 + k + 1 else e0 + k
    let q2 := if q1 = 2 ^ 53 then 2 ^ 52 else q1
    if 2047 ≤ e1 then ⟨s, 2047, 0⟩ else ⟨s, e1, q2 - 2 ^ 52⟩

/-- The operation `x + y` on `double` (IEEE 754 binary64 addition in the
default rounding mode): NaN and infinity cases first; otherwise the two
significands are aligned to the smaller exponent, added exactly as signed
integers, and the exact sum is rounded once. An exact zero sum is `+0` unless
both operands are negative (zeros). -/
def Double.add (x y : Double) : Double :=
  if x.isNaN || y.isNaN then Double.qNaN
  else if x.isInf then (if y.isInf && (x.sign != y.sign) then Double.qNaN else x)
  else if y.isInf then y
  else
    let e0 := min x.ex y.ex
    let X : Int := (x.sig * 2 ^ (x.ex - e0) : Nat)
    let Y : Int := (y.sig * 2 ^ (y.ex - e0) : Nat)
    let S : Int := (if x.sign then -X else X) + (if y.sign then -Y else Y)
    if S = 0 then ⟨x.sign && y.sign, 0, 0⟩
    else Double.round (decide (S < 0)) S.natAbs e0

/-! ## FailedLitSearcher.h : `Stats` -/

/-- What `FailedLitSearcher::Stats` uses of each of the classes `PropStats` and
`ConflStats`, whose declarations are in a header that is not among the
available sources: the default constructor (run for a member that the
constructor's initialiser list does not name) and `operator+=`. Both are
parameters; `α` is the class. -/
structure NestedStats (α : Type) where
  construct : α
  plusEq : α → α → α

/-- The data members of `FailedLitSearcher::Stats`, in declaration order:
`double myTime`, five `uint64_t` fail counters, `PropStats propData`,
`ConflStats conflStats`, two `uint64_t` binary-clause counters. -/
structure Stats (α β : Type) where
  myTime : Double
  numFailed : Nat
  numProbed : Nat
  numVisited : Nat
  zeroDepthAssigns : Nat
  origNumFreeVars : Nat
  propData : α
  conflStats : β
  addedBin : Nat
  removedBin : Nat

/-- The constructor `Stats()`: the initialiser list sets `myTime`, `numFailed`,
`numProbed`, `numVisited`, `zeroDepthAssigns`, `origNumFreeVars`, `addedBin`
and `removedBin` to 0; `propData` and `conflStats` are default-constructed. -/
def Stats.construct {α β : Type} (P : NestedStats α) (C : NestedStats β) : Stats α β :=
  { myTime := Double.zero
    numFailed := 0
    numProbed := 0
    numVisited := 0
    zeroDepthAssigns := 0
    origNumFreeVars := 0
    propData := P.construct
    conflStats := C.construct
    addedBin := 0
    removedBin := 0 }

/-- The member function `Stats::clear()`: `Stats tmp; *this = tmp;`, the
assignment copying member by member. -/
def Stats.clear {α β : Type} (P : NestedStats α) (C : NestedStats β) (self : Stats α β) :
    Stats α β :=
  let tmp := Stats.construct P C
  { self with
    myTime := tmp.myTime
    numFailed := tmp.numFailed
    numProbed := tmp.numProbed
    numVisited := tmp.numVisited
    zeroDepthAssigns := tmp.zeroDepthAssigns
    origNumFreeVars := tmp.origNumFreeVars
    propData := tmp.propData
    conflStats := tmp.conflStats
    addedBin := tmp.addedBin
    removedBin := tmp.removedBin }

/-- The two objects of a call `a += b` on `Stats`: `self` is `*this` (`a`),
`other` the object behind the `const Stats&` parameter (`b`), a different
object from `a`. -/
structure PlusEqCall (α β : Type) where
  self : Stats α β
  other : Stats α β

/-- The member function `Stats::operator+=(const Stats& other)`: the ten
statements in source order, each a `+=` on one member (`double` addition for
`myTime`, `uint64_t` addition modulo 2^64 for the counters, the nested class's
own `operator+=` for `propData` and `conflStats`), then `return *this;`.
The result is the two objects after the call and the object the returned
reference denotes. -/
def Stats.plusEq {α β : Type} (P : NestedStats α) (C : NestedStats β) (st : PlusEqCall α β) :
    PlusEqCall α β × Stats α β :=
  let st := { st with self := { st.self with myTime := Double.add st.self.myTime st.other.myTime } }
  let st := { st with self := { st.self with
    numFailed := (st.self.numFailed + st.other.numFailed) % 2 ^ 64 } }
  let st := { st with self := { st.self with
    numProbed := (st.self.numProbed + st.other.numProbed) % 2 ^ 64 } }
  let st := { st with self := { st.self with
    numVisited := (st.self.numVisited + st.other.numVisited) % 2 ^ 64 } }
  let st := { st with self := { st.self with
    zeroDepthAssigns := (st.self.zeroDepthAssigns + st.other.zeroDepthAssigns) % 2 ^ 64 } }
  let st := { st with self := { st.self with
    origNumFreeVars := (st.self.origNumFreeVars + st.other.origNumFreeVars) % 2 ^ 64 } }
  let st := { st with self := { st.self with
    propData := P.plusEq st.self.propData st.other.propData } }
  let st := { st with self := { st.self with
    conflStats := C.plusEq st.self.conflStats st.other.conflStats } }
  let st := { st with self := { st.self with
    addedBin := (st.self.addedBin + st.other.addedBin) % 2 ^ 64 } }
  let st := { st with self := { st.self with
    removedBin := (st.self.removedBin + st.other.removedBin) % 2 ^ 64 } }
  (st, st.self)

/-- The value of `a` after `a += b`. -/
def Stats.merge {α β : Type} (P : NestedStats α) (C : NestedStats β) (a b : Stats α β) :
    Stats α β :=
  (Stats.plusEq P C ⟨a, b⟩).1.self

/-- A nested statistics class with one `uint64_t` counter, zero-initialised and
summed modulo 2^64 (used to instantiate `PropStats` and `ConflStats` at
concrete inputs). -/
def counterStats : NestedStats Nat :=
  { construct := 0
    plusEq := fun a b => (a + b) % 2 ^ 64 }

/-! ## FailedLitSearcher.h : `TwoLongXor` -/

/-- The class `FailedLitSearcher::TwoLongXor`: `Var var[2]` (`Var` is a 32-bit
unsigned integer; `var0` is `var[0]`, `var1` is `var[1]`) and `bool inverted`. -/
structure TwoLongXor where
  var0 : Nat
  var1 : Nat
  inverted : Bool
deriving DecidableEq, Repr

/-- The member function `TwoLongXor::operator==`. -/
def TwoLongXor.eq (self other : TwoLongXor) : Bool :=
  if self.var0 == other.var0 && self.var1 == other.var1 && self.inverted == other.inverted
  then true
  else false

/-- The member function `TwoLongXor::operator<`: the six tests in source order
(the `bool` members are compared as the integers 0 and 1), then `return false;`. -/
def TwoLongXor.lt (self other : TwoLongXor) : Bool :=
  if self.var0 < other.var0 then true
  else if self.var0 > other.var0 then false
  else if self.var1 < other.var1 then true
  else if self.var1 > other.var1 then false
  else if boolToNat self.inverted < boolToNat other.inverted then true
  else if boolToNat self.inverted > boolToNat other.inverted then false
  else false

/-- The `double` value 1.0. -/
def Double.one : Double := ⟨false, 1023, 0⟩

/-- The `double` value 2^53 = 9007199254740992.0. -/
def Double.twoPow53 : Double := ⟨false, 1076, 0⟩

/-- The `double` nearest to 0.1 (bits 0x3FB999999999999A). -/
def Double.tenth : Double := ⟨false, 1019, 0x999999999999A⟩

/-- The `double` nearest to 0.2 (bits 0x3FC999999999999A). -/
def Double.fifth : Double := ⟨false, 1020, 0x999999999999A⟩

/-- The `double` nearest to 0.3 (bits 0x3FD3333333333333). -/
def Double.threeTenths : Double := ⟨false, 1021, 0x3333333333333⟩

/-- A freshly constructed `Stats` (over one-counter nested classes) whose
`myTime` has then been set to `t`. -/
def statsWithTime (t : Double) : Stats Nat Nat :=
  { Stats.construct counterStats counterStats with myTime := t }

/-! ## Auxiliary definitions used in the statements -/

/-- The value `lbool2value` returns for `b`, as a total function: raw 0 is
`CMSAT_VAL_TRUE`, raw 1 is `CMSAT_VAL_FALSE`, anything else
`CMSAT_VAL_UNKNOWN`. -/
def valueOf (b : lbool) : Int :=
  if b.value = 0 then CMSAT_VAL_TRUE
  else if b.value = 1 then CMSAT_VAL_FALSE else CMSAT_VAL_UNKNOWN

/-- The opposite truth value of a `cmsat_value`: true and false are swapped,
unknown stays unknown. -/
def oppositeValue (v : Int) : Int :=
  if v = CMSAT_VAL_TRUE then CMSAT_VAL_FALSE
  else if v = CMSAT_VAL_FALSE then CMSAT_VAL_TRUE
  else v

/-- A solver that only records the clauses and xor clauses it is handed and
answers `ok` to each (used to instantiate `SATSolver` at concrete inputs). -/
def recordingSolver (ok : Bool) : SATSolver (List (List Lit) × List (List Nat × Bool)) :=
  { add_clause := fun st c => ((st.1 ++ [c], st.2), ok)
    add_xor_clause := fun st vs rhs => ((st.1, st.2 ++ [(vs, rhs)]), ok)
    solve := fun st _ => (st, l_Undef)
    get_model := fun _ => [] }

/-- A solver whose model is the given list (used to instantiate `SATSolver` at
concrete inputs). -/
def fixedModelSolver (model : List lbool) : SATSolver Unit :=
  { add_clause := fun st _ => (st, true)
    add_xor_clause := fun st _ _ => (st, true)
    solve := fun st _ => (st, l_True)
    get_model := fun _ => model }

/-! ## FailedLitSearcher : building a `TwoLongXor` record -/

/-- Modelled from the spec: the code that builds a `TwoLongXor` record from
the two variables left in a shortened xor clause is in FailedLitSearcher.cpp,
which is not among the available sources (the header declares only the class,
with public members and no constructor). The spec describes the record as "a
canonical pair of variable identifiers (smaller id first) plus an inversion
flag"; `v` and `w` are the two variables in the order they were observed. -/
def TwoLongXor.canonical (v w : Nat) (inverted : Bool) : TwoLongXor :=
  { var0 := if v ≤ w then v else w
    var1 := if v ≤ w then w else v
    inverted := inverted }

/-! ## FailedLitSearcher : the probe driver -/

/-- Modelled from the spec: the constructor `Lit(var, sign)` of the solver's
literal class (declared outside the available sources), "a variable
identifier plus a polarity sign", in the layout of `Lit` above. -/
def Lit.mkLit (var : Nat) (sign : Bool) : Lit := ⟨var + var + boolToNat sign⟩

/-- Modelled from the spec: the complement `~l` of a literal (declared with
the class, outside the available sources): "two literals of the same variable
are complementary"; the lower-order bit is flipped. -/
def Lit.neg (l : Lit) : Lit := ⟨l.x ^^^ 1⟩

/-- A literal is true under a trail when the trail holds it. -/
def litTrue (trail : List Lit) (l : Lit) : Bool := trail.contains l

/-- A literal is false under a trail when the trail holds its complement. -/
def litFalse (trail : List Lit) (l : Lit) : Bool := trail.contains l.neg

/-- A clause is in conflict under a trail when all its literals are false. -/
def isConflict (trail : List Lit) (c : List Lit) : Bool := c.all (litFalse trail)

/-- The literal a clause forces under a trail: the clause has no true
literal and exactly one literal that is not false. -/
def unitLit (trail : List Lit) (c : List Lit) : Option Lit :=
  if c.any (litTrue trail) then none
  else
    match c.filter (fun l => !litFalse trail l) with
    | l :: rest => if rest.all (fun k => k == l) then some l else none
    | [] => none

/-- Outcome of a propagation: a conflict (with the clause found false and the
trail at that point) or a fixed point (with the trail reached). -/
inductive PropResult where
  | conflict (confl : List Lit) (trail : List Lit)
  | done (trail : List Lit)
deriving DecidableEq, Repr

/-- The trail of a propagation outcome. -/
def PropResult.trail : PropResult → List Lit
  | PropResult.conflict _ t => t
  | PropResult.done t => t

/-- Modelled from the spec: the propagation oracle, an external collaborator
of the prober ("given a tentative literal assignment, propagates it to a fixed
point and reports either a conflict or the resulting set of newly forced
literals"), as unit propagation over a clause list: while no clause is in
conflict, the literal forced by the first unit clause is appended to the
trail. `fuel` bounds the number of appended literals. -/
def propagateAux : Nat → List (List Lit) → List Lit → PropResult
  | 0, clauses, trail =>
    match clauses.find? (isConflict trail) with
    | some c => PropResult.conflict c trail
    | none => PropResult.done trail
  | fuel + 1, clauses, trail =>
    match clauses.find? (isConflict trail) with
    | some c => PropResult.conflict c trail
    | none =>
      match clauses.findSome? (unitLit trail) with
      | some l => propagateAux fuel clauses (trail ++ [l])
      | none => PropResult.done trail

/-- Propagation to the fixed point: a clause that has forced its literal is
satisfied from then on, so one step for each clause is enough. -/
def propagate (clauses : List (List Lit)) (trail : List Lit) : PropResult :=
  propagateAux clauses.length clauses trail

/-- What a pass of the prober records, in order: a literal is tentatively
assigned, a probe failed on a clause, a literal is committed at the root scope,
a variable is skipped as already fixed. -/
inductive ProbeEvent where
  | probed (l : Lit)
  | failed (l : Lit) (confl : List Lit)
  | forced (l : Lit)
  | skipped (var : Nat)
deriving DecidableEq, Repr

/-- Modelled from the spec: the solver context the prober works on (the class
`ThreadControl`, only forward-declared in FailedLitSearcher.h): the clause
store, the trail, whose content between two probes is the root scope, the flag
that turns false once a root-level conflict is derived, and the record of the
pass. -/
structure ProbeState where
  clauses : List (List Lit)
  trail : List Lit
  ok : Bool
  events : List ProbeEvent
deriving DecidableEq, Repr

/-- Modelled from the spec: `mark() -> trail-position`. -/
def ProbeState.mark (st : ProbeState) : Nat := st.trail.length

/-- Modelled from the spec: `rollback(trail-position)`, the trail "truncatable
to a previously recorded mark". -/
def ProbeState.rollback (st : ProbeState) (pos : Nat) : ProbeState :=
  { st with trail := st.trail.take pos }

/-- Modelled from the spec: `tryAssign(literal) -> {ok, implied-set} | conflict`,
"tentative assignment plus propagation to fixed point": the literal is
appended to the trail and propagated; the state holds the trail reached. -/
def ProbeState.tryAssign (st : ProbeState) (l : Lit) : ProbeState × PropResult :=
  let r := propagate st.clauses (st.trail ++ [l])
  ({ st with trail := r.trail }, r)

/-- Modelled from the spec: `forcePermanent(literal)`, "commit a root-scope
unit fact; fails (contradiction) if the negation is already permanent"; a
conflict of the propagation at the root scope is a root-level conflict as
well. -/
def ProbeState.forcePermanent (st : ProbeState) (l : Lit) : ProbeState :=
  if !st.ok then st
  else if litFalse st.trail l then { st with ok := false }
  else if litTrue st.trail l then st
  else
    match propagate st.clauses (st.trail ++ [l]) with
    | PropResult.conflict _ t => { st with trail := t, ok := false, events := st.events ++ [ProbeEvent.forced l] }
    | PropResult.done t => { st with trail := t, events := st.events ++ [ProbeEvent.forced l] }

/-- Modelled from the spec: the member function `tryThis(const Lit lit)`, whose
body is in FailedLitSearcher.cpp, not among the available sources; steps 1 to 5
of the probe driver for one literal: "(1) mark the trail; (2) tentatively
assign the ... literal and propagate; (3) if conflict, treat as a failed
literal ...; (4) otherwise record the branch's implied set ...; (5) roll back
to the mark", with the failure path "if propagating a literal conflicts, its
negation is asserted permanently at the root scope". The result is the state
and, when the probe did not fail, the implied set. -/
def tryThis (st : ProbeState) (lit : Lit) : ProbeState × Option (List Lit) :=
  let pos := st.mark
  let st1 := { st with events := st.events ++ [ProbeEvent.probed lit] }
  let r := st1.tryAssign lit
  match r.2 with
  | PropResult.conflict c _ =>
    let st3 := r.1.rollback pos
    let st4 := { st3 with events := st3.events ++ [ProbeEvent.failed lit c] }
    (st4.forcePermanent lit.neg, none)
  | PropResult.done t =>
    (r.1.rollback pos, some (t.drop (pos + 1)))

/-- The value of a variable at the root scope is defined. -/
def varFixed (trail : List Lit) (var : Nat) : Bool :=
  litTrue trail (Lit.mkLit var false) || litTrue trail (Lit.mkLit var true)

/-- Modelled from the spec: the probe driver for one variable (body in
FailedLitSearcher.cpp, not among the available sources): "a variable is only
probed while free (unassigned at the root scope)"; the positive literal is
tried, then the negative one, a failed literal ending the variable's turn;
"(7) reconcile both branches: literals forced identically in both become
permanent unconditional facts". The xor and hyper-binary observers, which only
add derived facts after both branches, are left out. -/
def probeVar (st : ProbeState) (var : Nat) : ProbeState :=
  if !st.ok then st
  else if varFixed st.trail var then { st with events := st.events ++ [ProbeEvent.skipped var] }
  else
    match tryThis st (Lit.mkLit var false) with
    | (st1, none) => st1
    | (st1, some implPos) =>
      match tryThis st1 (Lit.mkLit var true) with
      | (st2, none) => st2
      | (st2, some implNeg) =>
        (implPos.filter fun l => implNeg.contains l).foldl ProbeState.forcePermanent st2

/-- Modelled from the spec: the member function `search()` (body in
FailedLitSearcher.cpp, not among the available sources): one "full probing
pass over currently free variables", in the order `order` that the selection
heuristic supplies, which "returns whether the formula remains potentially
satisfiable (false signals a root-level conflict was derived)". The effort
budget and the multi-level prober are left out. -/
def search (st : ProbeState) (order : List Nat) : ProbeState × Bool :=
  let st1 := order.foldl probeVar st
  (st1, st1.ok)

/-- The formula of the end-to-end scenario: the binary clauses (¬x1 ∨ x2),
(¬x1 ∨ x3), (¬x2 ∨ ¬x3). -/
def scenarioClauses : List (List Lit) :=
  [[Lit.mkLit 1 true, Lit.mkLit 2 false],
   [Lit.mkLit 1 true, Lit.mkLit 3 false],
   [Lit.mkLit 2 true, Lit.mkLit 3 true]]

/-- The solver context of the scenario before the pass: nothing assigned. -/
def scenarioState : ProbeState :=
  { clauses := scenarioClauses, trail := [], ok := true, events := [] }

/-! ## Theorems -/

set_option maxRecDepth 100000


/-! ## Properties of the literal encoding -/

theorem cmsat_lit_eq (x : Nat) (s : Bool) (hx : x < 2 ^ 31) :
    cmsat_lit x s = 2 * x + boolToNat s := by
  unfold cmsat_lit boolToNat
  cases s <;> simp <;> omega

/-- C1: for every variable index `x < 2^31`, `cmsat_lit(x, false)` and
`cmsat_pos(x)` equal `2x`, and `cmsat_lit(x, true)` and `cmsat_neg(x)` equal
`2x+1`; the values are below 2^32, so the unsigned 32-bit arithmetic does not
wrap around. -/
theorem cmsat_lit_pos_neg_encoding (x : Nat) (hx : x < 2 ^ 31) :
    cmsat_lit x false = 2 * x ∧ cmsat_pos x = 2 * x ∧
    cmsat_lit x true = 2 * x + 1 ∧ cmsat_neg x = 2 * x + 1 ∧
    x + x + 1 < 2 ^ 32 := by
  have h0 := cmsat_lit_eq x false hx
  have h1 := cmsat_lit_eq x true hx
  simp only [boolToNat] at h0 h1
  refine ⟨by simpa using h0, by simpa [cmsat_pos] using h0, by simpa using h1,
    by simpa [cmsat_neg] using h1, by omega⟩

theorem cmsat_lit_pos_neg_encoding_witness :
    (5 : Nat) < 2 ^ 31 ∧ cmsat_lit 5 false = 10 ∧ cmsat_pos 5 = 10 ∧
    cmsat_lit 5 true = 11 ∧ cmsat_neg 5 = 11 ∧
    cmsat_pos (2 ^ 31 - 1) = 4294967294 ∧ cmsat_neg (2 ^ 31 - 1) = 4294967295 := by
  have h := cmsat_lit_pos_neg_encoding 5 (by decide)
  have h2 := cmsat_lit_pos_neg_encoding (2 ^ 31 - 1) (by decide)
  exact ⟨by decide, h.1, h.2.1, h.2.2.1, h.2.2.2.1, h2.2.1, h2.2.2.2.1⟩

theorem Lit_sign_eq (l : Nat) : (Lit.toLit l).sign = decide (l % 2 = 1) := by
  unfold Lit.sign Lit.toLit
  simp only [Nat.and_one_is_mod]
  rcases Nat.mod_two_eq_zero_or_one l with h | h <;> simp [h]

theorem Lit_var_eq (l : Nat) : (Lit.toLit l).var = l / 2 := by
  unfold Lit.var Lit.toLit
  simp [Nat.shiftRight_eq_div_pow]

theorem cmsat_lit_var_sign (x : Nat) (s : Bool) (hx : x < 2 ^ 31) :
    (Lit.toLit (cmsat_lit x s)).var = x ∧ (Lit.toLit (cmsat_lit x s)).sign = s := by
  have hs := cmsat_lit_eq x s hx
  constructor
  · rw [Lit_var_eq, hs]
    cases s
    · have e : boolToNat false = 0 := rfl
      omega
    · have e : boolToNat true = 1 := rfl
      omega
  · rw [Lit_sign_eq, hs]
    cases s
    · have e : boolToNat false = 0 := rfl
      exact decide_eq_false (by omega)
    · have e : boolToNat true = 1 := rfl
      exact decide_eq_true (by omega)

/-- C2: for every variable index `x < 2^31` and every sign `s`, the literal
`l = cmsat_lit(x, s)` decodes back to its parts: its lowest bit is `s`
(0 positive, 1 negative) and `l >> 1` is `x`, as `Lit::sign()` and `Lit::var()`
read them; `cmsat_lit` is injective on that range; `cmsat_pos(x)` and
`cmsat_neg(x)` are two distinct literals of the same variable that differ only
in the lowest bit. -/
theorem cmsat_lit_decode (x : Nat) (s : Bool) (hx : x < 2 ^ 31) :
    cmsat_lit x s &&& 1 = boolToNat s ∧ cmsat_lit x s >>> 1 = x ∧
    (Lit.toLit (cmsat_lit x s)).sign = s ∧ (Lit.toLit (cmsat_lit x s)).var = x ∧
    (∀ (y : Nat) (t : Bool), y < 2 ^ 31 → cmsat_lit y t = cmsat_lit x s → y = x ∧ t = s) ∧
    cmsat_pos x ≠ cmsat_neg x ∧
    (Lit.toLit (cmsat_pos x)).var = x ∧ (Lit.toLit (cmsat_neg x)).var = x ∧
    (Lit.toLit (cmsat_pos x)).sign = false ∧ (Lit.toLit (cmsat_neg x)).sign = true ∧
    cmsat_pos x ^^^ cmsat_neg x = 1 := by
  have hs := cmsat_lit_eq x s hx
  have h0 := cmsat_lit_eq x false hx
  have h1 := cmsat_lit_eq x true hx
  have hb : boolToNat s ≤ 1 := by cases s <;> simp [boolToNat]
  have hp : cmsat_pos x = 2 * x := by simpa [cmsat_pos, boolToNat] using h0
  have hn : cmsat_neg x = 2 * x + 1 := by simpa [cmsat_neg, boolToNat] using h1
  have hx1 : cmsat_pos x ^^^ cmsat_neg x = 1 := by
    have e0 : cmsat_pos x = Nat.bit false x := by
      simp [hp, Nat.bit_val]
    have e1 : cmsat_neg x = Nat.bit true x := by
      simp [hn, Nat.bit_val]
    rw [e0, e1, Nat.xor_bit]
    simp [Nat.bit_val]
  refine ⟨?_, ?_, ?_, ?_, ?_, ?_, ?_, ?_, ?_, ?_, hx1⟩
  · rw [Nat.and_one_is_mod, hs]; omega
  · rw [Nat.shiftRight_eq_div_pow, hs]; omega
  · rw [Lit_sign_eq, hs]
    cases s
    · have e : boolToNat false = 0 := rfl
      exact decide_eq_false (by omega)
    · have e : boolToNat true = 1 := rfl
      exact decide_eq_true (by omega)
  · rw [Lit_var_eq, hs]; omega
  · intro y t hy h
    rw [cmsat_lit_eq y t hy, hs] at h
    have ht : boolToNat t ≤ 1 := by cases t <;> simp [boolToNat]
    have hxy : y = x := by omega
    refine ⟨hxy, ?_⟩
    subst hxy
    cases t <;> cases s <;> simp [boolToNat] at h ⊢
  · rw [hp, hn]; omega
  · rw [Lit_var_eq, hp]; omega
  · rw [Lit_var_eq, hn]; omega
  · rw [Lit_sign_eq, hp]; exact decide_eq_false (by omega)
  · rw [Lit_sign_eq, hn]; exact decide_eq_true (by omega)

theorem cmsat_lit_decode_witness :
    (7 : Nat) < 2 ^ 31 ∧ cmsat_lit 7 true = 15 ∧ (15 : Nat) &&& 1 = 1 ∧ (15 : Nat) >>> 1 = 7 ∧
    (Lit.toLit (cmsat_lit 7 true)).sign = true ∧ (Lit.toLit (cmsat_lit 7 true)).var = 7 := by
  have h := cmsat_lit_decode 7 true (by decide)
  exact ⟨by decide, by decide, by decide, by decide, h.2.2.1, h.2.2.2.1⟩

/-! ## Properties of the status and value conversions -/

theorem lbool2status_eq (b : lbool) :
    lbool2status b = some (if b.value = 0 then CMSAT_SAT
      else if b.value = 1 then CMSAT_UNSAT else CMSAT_UNKNOWN) := by
  obtain ⟨v⟩ := b
  unfold lbool2status lbool.getValue lbool_to_status
  match v with
  | 0 => rfl
  | 1 => rfl
  | 2 => rfl
  | v + 3 => simp

theorem lbool2value_eq (b : lbool) :
    lbool2value b = some (if b.value = 0 then CMSAT_VAL_TRUE
      else if b.value = 1 then CMSAT_VAL_FALSE else CMSAT_VAL_UNKNOWN) := by
  obtain ⟨v⟩ := b
  unfold lbool2value lbool.getValue lbool_to_value
  match v with
  | 0 => rfl
  | 1 => rfl
  | 2 => rfl
  | v + 3 => simp

theorem build_lit_array_eq {σ : Type} (s : cmsat_solver σ) (a : List Nat) (n : Nat)
    (hn : n ≤ a.length) :
    build_lit_array s a n = some { s with lit_buffer := (a.take n).map Lit.toLit } := by
  unfold build_lit_array
  induction n with
  | zero => simp
  | succ k ih =>
    have hk : k < a.length := by omega
    rw [List.range_succ, List.foldlM_append, ih (by omega)]
    simp only [List.foldlM_cons, List.foldlM_nil, Option.bind_eq_bind, Option.some_bind,
      List.getElem?_eq_getElem hk, Option.map_some', List.take_succ, Option.toList_some,
      List.map_append, List.map_cons, List.map_nil, Option.bind_some]
    rfl

theorem build_var_array_eq {σ : Type} (s : cmsat_solver σ) (a : List Nat) (n : Nat)
    (hn : n ≤ a.length) :
    build_var_array s a n = some { s with var_buffer := a.take n } := by
  unfold build_var_array
  induction n with
  | zero => simp
  | succ k ih =>
    have hk : k < a.length := by omega
    rw [List.range_succ, List.foldlM_append, ih (by omega)]
    simp only [List.foldlM_cons, List.foldlM_nil, Option.bind_eq_bind, Option.some_bind,
      List.getElem?_eq_getElem hk, Option.map_some', List.take_succ, Option.toList_some,
      List.map_append, List.map_cons, List.map_nil, Option.bind_some]
    rfl

/-- C3: `lbool2status` is total on every raw `lbool` value (in particular on
every 8-bit one): raw 0 (`l_True`) gives `CMSAT_SAT` (10), raw 1 (`l_False`)
gives `CMSAT_UNSAT` (20), raw 2 (`l_Undef`) gives `CMSAT_UNKNOWN` (0), every raw
value of 3 or more gives `CMSAT_UNKNOWN`, and no table read falls outside the
3-entry table (the result is never `none`); `cmsat_solve` returns
`lbool2status` of the answer of the solver's `solve()`, and
`cmsat_solve_with_assumptions(s, a, n)`, for an array `a` of at least `n`
elements, returns `lbool2status` of the answer of the solver's `solve` on the
`n` literals decoded from `a[0..n-1]`. -/
theorem lbool2status_total :
    lbool2status l_True = some 10 ∧ lbool2status l_False = some 20 ∧
    lbool2status l_Undef = some 0 ∧
    (∀ v : Nat, 3 ≤ v → lbool2status ⟨v⟩ = some CMSAT_UNKNOWN) ∧
    (∀ b : lbool, lbool2status b = some CMSAT_SAT ∨ lbool2status b = some CMSAT_UNSAT ∨
      lbool2status b = some CMSAT_UNKNOWN) ∧
    (∀ (σ : Type) (S : SATSolver σ) (s : cmsat_solver σ),
      (cmsat_solve S s).2 = lbool2status (S.solve s.solver none).2) ∧
    (∀ (σ : Type) (S : SATSolver σ) (s : cmsat_solver σ),
      cmsat_solve S s =
        ({ solver := (S.solve s.solver none).1
           lit_buffer := s.lit_buffer
           var_buffer := s.var_buffer },
         lbool2status (S.solve s.solver none).2)) ∧
    (∀ (σ : Type) (S : SATSolver σ) (s : cmsat_solver σ) (a : List Nat) (n : Nat),
      n ≤ a.length →
      cmsat_solve_with_assumptions S s a n =
        some ({ solver := (S.solve s.solver (some ((a.take n).map Lit.toLit))).1
                lit_buffer := (a.take n).map Lit.toLit
                var_buffer := s.var_buffer },
              lbool2status (S.solve s.solver (some ((a.take n).map Lit.toLit))).2)) ∧
    (∀ (σ : Type) (S : SATSolver σ) (s s1 : cmsat_solver σ) (a : List Nat) (n : Nat)
      (st : Option Int), cmsat_solve_with_assumptions S s a n = some (s1, st) →
      ∃ s2 : cmsat_solver σ, build_lit_array s a n = some s2 ∧
        st = lbool2status (S.solve s2.solver (some s2.lit_buffer)).2 ∧ st ≠ none) ∧
    cmsat_solve_with_assumptions (fixedModelSolver []) ⟨(), [⟨9⟩], [8]⟩ [4, 7, 1] 2 =
      some (⟨(), [⟨4⟩, ⟨7⟩], [8]⟩, some CMSAT_SAT) ∧
    cmsat_solve_with_assumptions (recordingSolver true) ⟨([], []), [⟨9⟩], [8]⟩ [4, 7, 1] 2 =
      some (⟨([], []), [⟨4⟩, ⟨7⟩], [8]⟩, some CMSAT_UNKNOWN) := by
  refine ⟨rfl, rfl, rfl, ?_, ?_, ?_, ?_, ?_, ?_, rfl, rfl⟩
  · intro v hv
    rw [lbool2status_eq]
    have h0 : v ≠ 0 := by omega
    have h1 : v ≠ 1 := by omega
    simp [h0, h1]
  · intro b
    rw [lbool2status_eq]
    by_cases h0 : b.value = 0
    · simp [h0]
    · by_cases h1 : b.value = 1
      · simp [h1]
      · simp [h0, h1]
  · intro σ S s
    rfl
  · intro σ S s
    rfl
  · intro σ S s a n hn
    unfold cmsat_solve_with_assumptions
    rw [build_lit_array_eq s a n hn]
    rfl
  · intro σ S s s1 a n st h
    unfold cmsat_solve_with_assumptions at h
    cases hb : build_lit_array s a n with
    | none => simp [hb] at h
    | some s2 =>
      simp only [hb, Option.map_some', Option.some.injEq, Prod.mk.injEq] at h
      refine ⟨s2, rfl, h.2.symm, ?_⟩
      rw [← h.2, lbool2status_eq]
      simp

/-! ## Properties of the clause-adding wrappers -/

/-- C4: `cmsat_add_clause(s, a, n)`, for an array `a` of at least `n` elements,
hands the solver's `add_clause` exactly the `n` literals decoded from
`a[0..n-1]`, in order, whatever `lit_buffer` held before the call, and returns
0 when `add_clause` reports success and -1 when it reports failure;
`cmsat_add_xor_clause` does the same with the `n` variables of `a` and `rhs`. -/
theorem cmsat_add_clause_spec {σ : Type} (S : SATSolver σ) (s : cmsat_solver σ) (a : List Nat)
    (n : Nat) (rhs : Bool) (hn : n ≤ a.length) :
    (cmsat_add_clause S s a n =
      some ({ solver := (S.add_clause s.solver ((a.take n).map Lit.toLit)).1
              lit_buffer := (a.take n).map Lit.toLit
              var_buffer := s.var_buffer },
            if (S.add_clause s.solver ((a.take n).map Lit.toLit)).2 then 0 else -1)) ∧
    ((a.take n).map Lit.toLit).length = n ∧
    (∀ i : Nat, i < n → ((a.take n).map Lit.toLit)[i]? = (a[i]?).map Lit.toLit) ∧
    (cmsat_add_xor_clause S s a n rhs =
      some ({ solver := (S.add_xor_clause s.solver (a.take n) rhs).1
              lit_buffer := s.lit_buffer
              var_buffer := a.take n },
            if (S.add_xor_clause s.solver (a.take n) rhs).2 then 0 else -1)) ∧
    (a.take n).length = n ∧
    (∀ i : Nat, i < n → (a.take n)[i]? = a[i]?) := by
  refine ⟨?_, ?_, ?_, ?_, ?_, ?_⟩
  · unfold cmsat_add_clause
    rw [build_lit_array_eq s a n hn]
    simp only [Option.map_some']
    cases h : (S.add_clause s.solver ((a.take n).map Lit.toLit)).2 <;> simp [boolToNat]
  · simp [hn]
  · intro i hi
    simp [List.getElem?_take, hi]
  · unfold cmsat_add_xor_clause
    rw [build_var_array_eq s a n hn]
    simp only [Option.map_some']
    cases h : (S.add_xor_clause s.solver (a.take n) rhs).2 <;> simp [boolToNat]
  · simp [hn]
  · intro i hi
    simp [List.getElem?_take, hi]

theorem cmsat_add_clause_spec_witness :
    cmsat_add_clause (recordingSolver false) ⟨([], []), [⟨9⟩, ⟨9⟩, ⟨9⟩], [8]⟩ [4, 7, 1] 2 =
      some (⟨([[⟨4⟩, ⟨7⟩]], []), [⟨4⟩, ⟨7⟩], [8]⟩, -1) ∧
    cmsat_add_xor_clause (recordingSolver true) ⟨([], []), [⟨9⟩], [8, 8, 8]⟩ [4, 7, 1] 2 true =
      some (⟨([], [([4, 7], true)]), [⟨9⟩], [4, 7]⟩, 0) := by
  have h1 := (cmsat_add_clause_spec (recordingSolver false)
    ⟨([], []), [⟨9⟩, ⟨9⟩, ⟨9⟩], [8]⟩ [4, 7, 1] 2 true (by decide)).1
  have h2 := (cmsat_add_clause_spec (recordingSolver true)
    ⟨([], []), [⟨9⟩], [8, 8, 8]⟩ [4, 7, 1] 2 true (by decide)).2.2.2.1
  exact ⟨h1, h2⟩

/-! ## Properties of the model readers -/

theorem lbool_eq_undef (b : lbool) : b.eq l_Undef = ((b.value &&& 2) != 0) := by
  unfold lbool.eq l_Undef
  have h2 : (2 : Nat) &&& 2 = 2 := by decide
  have h3 : (2 : Nat) &&& (b.value &&& 2) = b.value &&& 2 := by
    rw [Nat.and_comm, Nat.and_assoc, h2]
  simp [h2, h3, boolToNat]

theorem lbool_xor_one_ne (v c : Nat) (h : v ^^^ 1 = c) : v = c ^^^ 1 := by
  rw [← h, Nat.xor_assoc, Nat.xor_self, Nat.xor_zero]

theorem cmsat_lit_value_eq {σ : Type} (S : SATSolver σ) (s : cmsat_solver σ) (x : Nat)
    (sign : Bool) (b : lbool) (hx : x < 2 ^ 31) (hb : (S.get_model s.solver)[x]? = some b) :
    cmsat_lit_value S s (cmsat_lit x sign) =
      if b.eq l_Undef then some CMSAT_VAL_UNKNOWN else lbool2value (b.xor sign) := by
  have hd := cmsat_lit_var_sign x sign hx
  unfold cmsat_lit_value
  simp only [hd.1, hd.2, hb, Option.some_bind]

/-- C5: for every literal `l = cmsat_lit(x, sign)` with `x` inside the model
(and `x < 2^31`, so that the literal is well formed), `cmsat_lit_value(s, l)` is
`CMSAT_VAL_UNKNOWN` when the model value of `x` is undefined, and otherwise
`CMSAT_VAL_TRUE` exactly when (`x` is true in the model) differs from `sign` and
`CMSAT_VAL_FALSE` in the other case; for the positive literal it equals
`cmsat_var_value(s, x)` and for the negative literal the opposite truth
value. -/
theorem cmsat_lit_value_spec {σ : Type} (S : SATSolver σ) (s : cmsat_solver σ) (x : Nat)
    (sign : Bool) (b : lbool) (hx : x < 2 ^ 31) (hb : (S.get_model s.solver)[x]? = some b) :
    (b.eq l_Undef = true → cmsat_lit_value S s (cmsat_lit x sign) = some CMSAT_VAL_UNKNOWN) ∧
    (b = l_Undef → cmsat_lit_value S s (cmsat_lit x sign) = some CMSAT_VAL_UNKNOWN) ∧
    (b = l_True ∨ b = l_False → cmsat_lit_value S s (cmsat_lit x sign) =
      some (if (decide (b = l_True) != sign) = true then CMSAT_VAL_TRUE else CMSAT_VAL_FALSE)) ∧
    cmsat_lit_value S s (cmsat_pos x) = cmsat_var_value S s x ∧
    cmsat_lit_value S s (cmsat_neg x) = (cmsat_var_value S s x).map oppositeValue := by
  have hv : cmsat_var_value S s x = lbool2value b := by
    unfold cmsat_var_value
    simp only [hb, Option.some_bind]
  refine ⟨?_, ?_, ?_, ?_, ?_⟩
  · intro h
    rw [cmsat_lit_value_eq S s x sign b hx hb, if_pos h]
  · intro h
    subst h
    rw [cmsat_lit_value_eq S s x sign l_Undef hx hb]
    rfl
  · intro h
    rw [cmsat_lit_value_eq S s x sign b hx hb]
    rcases h with h | h <;> subst h <;> cases sign <;> rfl
  · unfold cmsat_pos
    rw [cmsat_lit_value_eq S s x false b hx hb, hv, lbool_eq_undef]
    have hx0 : b.xor false = b := by
      unfold lbool.xor boolToNat
      simp
    rw [hx0]
    by_cases h : (b.value &&& 2) = 0
    · simp [h]
    · have h0 : b.value ≠ 0 := fun e => h (by rw [e]; rfl)
      have h1 : b.value ≠ 1 := fun e => h (by rw [e]; rfl)
      simp [h, lbool2value_eq, h0, h1]
  · unfold cmsat_neg
    rw [cmsat_lit_value_eq S s x true b hx hb, hv, lbool_eq_undef]
    have hx1 : (b.xor true).value = b.value ^^^ 1 := rfl
    rw [lbool2value_eq, lbool2value_eq, hx1]
    by_cases h : (b.value &&& 2) = 0
    · by_cases h0 : b.value = 0
      · simp [h0, oppositeValue, CMSAT_VAL_TRUE, CMSAT_VAL_FALSE]
      · by_cases h1 : b.value = 1
        · simp [h1, oppositeValue, CMSAT_VAL_TRUE, CMSAT_VAL_FALSE]
        · have g0 : b.value ^^^ 1 ≠ 0 := fun e => h1 (lbool_xor_one_ne _ _ e)
          have g1 : b.value ^^^ 1 ≠ 1 := fun e => h0 (lbool_xor_one_ne _ _ e)
          simp [h, h0, h1, g0, g1, oppositeValue, CMSAT_VAL_TRUE, CMSAT_VAL_FALSE,
            CMSAT_VAL_UNKNOWN]
    · have h0 : b.value ≠ 0 := fun e => h (by rw [e]; rfl)
      have h1 : b.value ≠ 1 := fun e => h (by rw [e]; rfl)
      simp [h, h0, h1, oppositeValue, CMSAT_VAL_TRUE, CMSAT_VAL_FALSE, CMSAT_VAL_UNKNOWN]

theorem cmsat_lit_value_spec_witness :
    cmsat_lit_value (fixedModelSolver [l_True, l_False, l_Undef]) ⟨(), [], []⟩ (cmsat_lit 1 true) =
      some CMSAT_VAL_TRUE ∧
    cmsat_lit_value (fixedModelSolver [l_True, l_False, l_Undef]) ⟨(), [], []⟩ (cmsat_neg 0) =
      some CMSAT_VAL_FALSE := by
  have h := cmsat_lit_value_spec (fixedModelSolver [l_True, l_False, l_Undef]) ⟨(), [], []⟩
    1 true l_False (by decide) rfl
  have h0 := cmsat_lit_value_spec (fixedModelSolver [l_True, l_False, l_Undef]) ⟨(), [], []⟩
    0 true l_True (by decide) rfl
  exact ⟨h.2.2.1 (Or.inr rfl), h0.2.2.2.2⟩

theorem toInt8_valueOf (b : lbool) : toInt8 (valueOf b) = valueOf b := by
  unfold valueOf toInt8
  split
  · rfl
  · split <;> rfl

theorem valueOf_cases (b : lbool) : valueOf b = 1 ∨ valueOf b = 0 ∨ valueOf b = -1 := by
  unfold valueOf
  split
  · exact Or.inl rfl
  · split
    · exact Or.inr (Or.inl rfl)
    · exact Or.inr (Or.inr rfl)

theorem get_model_loop (model : List lbool) (n k : Nat) (hn : n = model.length) (hk : k ≤ n) :
    (List.range k).foldlM
      (fun (mv : cmsat_val_vector) i =>
        (model[i]?).bind fun b =>
        (lbool2value b).bind fun v =>
          if i < mv.val.length then some { mv with val := mv.val.set i (toInt8 v) } else none)
      ⟨List.replicate n 0, n⟩ =
    some ⟨(model.take k).map valueOf ++ List.replicate (n - k) 0, n⟩ := by
  induction k with
  | zero => simp
  | succ j ih =>
    have hj : j < model.length := by omega
    rw [List.range_succ, List.foldlM_append, ih (by omega)]
    have hlen : j < ((model.take j).map valueOf ++ List.replicate (n - j) 0).length := by
      simp; omega
    have hv : lbool2value model[j] = some (valueOf model[j]) := lbool2value_eq _
    simp only [List.foldlM_cons, List.foldlM_nil, Option.bind_eq_bind, Option.some_bind,
      List.getElem?_eq_getElem hj, hv, if_pos hlen, toInt8_valueOf]
    have hset : ((model.take j).map valueOf ++ List.replicate (n - j) 0).set j (valueOf model[j]) =
        (model.take (j + 1)).map valueOf ++ List.replicate (n - (j + 1)) 0 := by
      have hl : ((model.take j).map valueOf).length = j := by
        simp only [List.length_map, List.length_take]
        omega
      have hr : n - j = (n - (j + 1)) + 1 := by omega
      rw [List.set_append_right j _ (by omega), hl, Nat.sub_self, hr, List.replicate_succ,
        List.set_cons_zero, List.take_succ, List.getElem?_eq_getElem hj, Option.toList_some,
        List.map_append, List.map_cons, List.map_nil, List.append_assoc]
      rfl
    rw [hset]
    rfl

/-- C6: `cmsat_get_model(s, m)` stores the whole model (of fewer than 2^32
entries): it completes, afterwards `m->nvals` is the number of entries of the
solver's model, the array `m->val` has that many cells, and for every variable
`x < m->nvals`, `m->val[x]` equals `cmsat_var_value(s, x)`, which is one of
`CMSAT_VAL_TRUE` (1), `CMSAT_VAL_FALSE` (0) or `CMSAT_VAL_UNKNOWN` (-1). -/
theorem cmsat_get_model_spec {σ : Type} (S : SATSolver σ) (s : cmsat_solver σ)
    (m : cmsat_val_vector) (hlen : (S.get_model s.solver).length < 2 ^ 32) :
    ∃ m1 : cmsat_val_vector, cmsat_get_model S s m = some m1 ∧
      m1.nvals = (S.get_model s.solver).length ∧ m1.val.length = m1.nvals ∧
      ∀ x : Nat, x < m1.nvals →
        m1.val[x]? = cmsat_var_value S s x ∧
        (cmsat_var_value S s x = some CMSAT_VAL_TRUE ∨
         cmsat_var_value S s x = some CMSAT_VAL_FALSE ∨
         cmsat_var_value S s x = some CMSAT_VAL_UNKNOWN) := by
  have hmod : (S.get_model s.solver).length % 2 ^ 32 = (S.get_model s.solver).length :=
    Nat.mod_eq_of_lt hlen
  refine ⟨⟨(S.get_model s.solver).map valueOf, (S.get_model s.solver).length⟩, ?_, rfl, ?_, ?_⟩
  · unfold cmsat_get_model
    simp only [hmod]
    rw [get_model_loop (S.get_model s.solver) _ _ rfl (Nat.le_refl _)]
    simp
  · simp
  · intro x hx
    have hx1 : x < (S.get_model s.solver).length := hx
    have hv : cmsat_var_value S s x = some (valueOf (S.get_model s.solver)[x]) := by
      unfold cmsat_var_value
      simp only [List.getElem?_eq_getElem hx1, Option.some_bind]
      exact lbool2value_eq _
    refine ⟨?_, ?_⟩
    · rw [hv]
      simp [List.getElem?_eq_getElem hx1]
    · rw [hv]
      rcases valueOf_cases (S.get_model s.solver)[x] with h | h | h
      · exact Or.inl (by rw [h]; rfl)
      · exact Or.inr (Or.inl (by rw [h]; rfl))
      · exact Or.inr (Or.inr (by rw [h]; rfl))

theorem cmsat_get_model_spec_witness :
    cmsat_get_model (fixedModelSolver [l_True, l_False, l_Undef, l_True]) ⟨(), [], []⟩ ⟨[5], 1⟩ =
      some ⟨[1, 0, -1, 1], 4⟩ ∧
    ∃ m1 : cmsat_val_vector,
      cmsat_get_model (fixedModelSolver [l_True, l_False, l_Undef, l_True]) ⟨(), [], []⟩ ⟨[5], 1⟩ =
        some m1 ∧ m1.nvals = 4 ∧ m1.val.length = m1.nvals := by
  obtain ⟨m1, h, hn, hl, -⟩ := cmsat_get_model_spec
    (fixedModelSolver [l_True, l_False, l_Undef, l_True]) ⟨(), [], []⟩ ⟨[5], 1⟩ (by decide)
  exact ⟨by decide, m1, h, hn, hl⟩

/-! ## Properties of `TwoLongXor` -/

theorem TwoLongXor_lt_iff (a b : TwoLongXor) :
    a.lt b = true ↔
      (a.var0 < b.var0 ∨ (a.var0 = b.var0 ∧
        (a.var1 < b.var1 ∨ (a.var1 = b.var1 ∧ a.inverted = false ∧ b.inverted = true)))) := by
  obtain ⟨a0, a1, ai⟩ := a
  obtain ⟨b0, b1, bi⟩ := b
  unfold TwoLongXor.lt
  simp only
  by_cases h1 : a0 < b0
  · simp [h1]
  · rw [if_neg h1]
    by_cases h2 : a0 > b0
    · rw [if_pos h2]
      simp only [Bool.false_eq_true, false_iff]
      omega
    · rw [if_neg h2]
      have e0 : a0 = b0 := by omega
      by_cases h3 : a1 < b1
      · simp [h3, e0]
      · rw [if_neg h3]
        by_cases h4 : a1 > b1
        · rw [if_pos h4]
          simp only [Bool.false_eq_true, false_iff]
          omega
        · rw [if_neg h4]
          have e1 : a1 = b1 := by omega
          subst e0 e1
          cases ai <;> cases bi <;> simp [boolToNat]

theorem TwoLongXor_eq_iff (a b : TwoLongXor) :
    a.eq b = true ↔ (a.var0 = b.var0 ∧ a.var1 = b.var1 ∧ a.inverted = b.inverted) := by
  unfold TwoLongXor.eq
  simp [and_assoc]

/-- C7: `TwoLongXor` records are totally ordered by `var[0]`, then `var[1]`,
then `inverted`: `operator<` compares `var[0]` first, then `var[1]`, then
`inverted` (false before true); it is irreflexive and transitive; and for every
two records `a`, `b` exactly one of `a < b`, `a == b`, `b < a` holds, where
`operator==` holds exactly for records equal in all three members. -/
theorem TwoLongXor_total_order :
    (∀ a b : TwoLongXor, a.lt b = true ↔
      (a.var0 < b.var0 ∨ (a.var0 = b.var0 ∧
        (a.var1 < b.var1 ∨ (a.var1 = b.var1 ∧ a.inverted = false ∧ b.inverted = true))))) ∧
    (∀ a b : TwoLongXor, a.eq b = true ↔
      (a.var0 = b.var0 ∧ a.var1 = b.var1 ∧ a.inverted = b.inverted)) ∧
    (∀ a : TwoLongXor, a.lt a = false) ∧
    (∀ a b c : TwoLongXor, a.lt b = true → b.lt c = true → a.lt c = true) ∧
    (∀ a b : TwoLongXor,
      (a.lt b = true ∧ a.eq b = false ∧ b.lt a = false) ∨
      (a.lt b = false ∧ a.eq b = true ∧ b.lt a = false) ∨
      (a.lt b = false ∧ a.eq b = false ∧ b.lt a = true)) := by
  refine ⟨TwoLongXor_lt_iff, ?_, ?_, ?_, ?_⟩
  · intro a b
    exact TwoLongXor_eq_iff a b
  · intro a
    rw [← Bool.not_eq_true, TwoLongXor_lt_iff]
    cases a.inverted <;> simp
  · intro a b c hab hbc
    rw [TwoLongXor_lt_iff] at hab hbc ⊢
    rcases hab with h | ⟨h0, h | ⟨h1, h2, h3⟩⟩ <;>
      rcases hbc with g | ⟨g0, g | ⟨g1, g2, g3⟩⟩
    · exact Or.inl (by omega)
    · exact Or.inl (by omega)
    · exact Or.inl (by omega)
    · exact Or.inl (by omega)
    · exact Or.inr ⟨by omega, Or.inl (by omega)⟩
    · exact Or.inr ⟨by omega, Or.inl (by omega)⟩
    · exact Or.inl (by omega)
    · exact Or.inr ⟨by omega, Or.inl (by omega)⟩
    · rw [h3] at g2
      exact absurd g2 (by decide)
  · intro a b
    have hl := TwoLongXor_lt_iff a b
    have hr := TwoLongXor_lt_iff b a
    have he := TwoLongXor_eq_iff a b
    obtain ⟨a0, a1, ai⟩ := a
    obtain ⟨b0, b1, bi⟩ := b
    cases ai <;> cases bi <;>
    cases hlt : TwoLongXor.lt _ _ <;> cases heq : TwoLongXor.eq _ _ <;>
    cases hgt : TwoLongXor.lt ⟨b0, b1, _⟩ _ <;>
    simp only [hlt, heq, hgt] at hl hr he <;> simp at hl hr he ⊢ <;> omega

/-! ## Properties of `Stats` -/

/-- C8, counterexample: with elapsed times 2^53, 1.0 and 1.0 the two groupings
of the merge give different `myTime` values: `(2^53 + 1.0) + 1.0` is `2^53`
(each addition of 1.0 is a tie that rounds to the even neighbour), while
`2^53 + (1.0 + 1.0)` is `2^53 + 2`; so the merge is not associative in
`myTime`. The same happens with the times 0.1, 0.2 and 0.3 seconds:
`(0.1 + 0.2) + 0.3` is 0.6000000000000001 (bits 0x3FE3333333333334) and
`0.1 + (0.2 + 0.3)` is 0.6 (bits 0x3FE3333333333333). -/
theorem Stats_merge_myTime_not_associative :
    (Stats.merge counterStats counterStats
      (Stats.merge counterStats counterStats
        (statsWithTime Double.twoPow53) (statsWithTime Double.one))
      (statsWithTime Double.one)).myTime = ⟨false, 1076, 0⟩ ∧
    (Stats.merge counterStats counterStats (statsWithTime Double.twoPow53)
      (Stats.merge counterStats counterStats
        (statsWithTime Double.one) (statsWithTime Double.one))).myTime = ⟨false, 1076, 1⟩ ∧
    Stats.merge counterStats counterStats
      (Stats.merge counterStats counterStats
        (statsWithTime Double.twoPow53) (statsWithTime Double.one))
      (statsWithTime Double.one) ≠
    Stats.merge counterStats counterStats (statsWithTime Double.twoPow53)
      (Stats.merge counterStats counterStats
        (statsWithTime Double.one) (statsWithTime Double.one)) ∧
    (Stats.merge counterStats counterStats
      (Stats.merge counterStats counterStats
        (statsWithTime Double.tenth) (statsWithTime Double.fifth))
      (statsWithTime Double.threeTenths)).myTime = ⟨false, 1022, 0x3333333333334⟩ ∧
    (Stats.merge counterStats counterStats (statsWithTime Double.tenth)
      (Stats.merge counterStats counterStats
        (statsWithTime Double.fifth) (statsWithTime Double.threeTenths))).myTime =
      ⟨false, 1022, 0x3333333333333⟩ := by
  have h1 : (Stats.merge counterStats counterStats
      (Stats.merge counterStats counterStats
        (statsWithTime Double.twoPow53) (statsWithTime Double.one))
      (statsWithTime Double.one)).myTime = ⟨false, 1076, 0⟩ := by decide
  have h2 : (Stats.merge counterStats counterStats (statsWithTime Double.twoPow53)
      (Stats.merge counterStats counterStats
        (statsWithTime Double.one) (statsWithTime Double.one))).myTime = ⟨false, 1076, 1⟩ := by
    decide
  refine ⟨h1, h2, ?_, by decide, by decide⟩
  intro h
  rw [h, h2] at h1
  exact absurd h1 (by decide)

theorem uint64_add_assoc (x y z : Nat) :
    ((x + y) % 2 ^ 64 + z) % 2 ^ 64 = (x + (y + z) % 2 ^ 64) % 2 ^ 64 := by
  omega

/-- C8, amended: the `Stats` merge is associative in every field other than
`myTime`: for all `a`, `b`, `c`, merging `b` into `a` and then `c` into the
result gives, in each `uint64_t` counter (modulo 2^64) and, when the nested
`operator+=` of `PropStats` and `ConflStats` are associative, in `propData` and
`conflStats`, the same value as merging `c` into `b` and then that into `a`;
the two `myTime` values are the `double` sums `(a + b) + c` and `a + (b + c)`. -/
theorem Stats_merge_associative_counters {α β : Type} (P : NestedStats α) (C : NestedStats β)
    (hP : ∀ x y z : α, P.plusEq (P.plusEq x y) z = P.plusEq x (P.plusEq y z))
    (hC : ∀ x y z : β, C.plusEq (C.plusEq x y) z = C.plusEq x (C.plusEq y z))
    (a b c : Stats α β) :
    Stats.merge P C (Stats.merge P C a b) c =
      { Stats.merge P C a (Stats.merge P C b c) with
        myTime := Double.add (Double.add a.myTime b.myTime) c.myTime } ∧
    (Stats.merge P C a (Stats.merge P C b c)).myTime =
      Double.add a.myTime (Double.add b.myTime c.myTime) := by
  refine ⟨?_, rfl⟩
  unfold Stats.merge Stats.plusEq
  simp only [Stats.mk.injEq, uint64_add_assoc, hP, hC, and_self]

theorem Stats_merge_associative_counters_witness :
    Stats.merge counterStats counterStats
      (Stats.merge counterStats counterStats
        (statsWithTime Double.twoPow53) (statsWithTime Double.one))
      (statsWithTime Double.one) =
    { Stats.merge counterStats counterStats (statsWithTime Double.twoPow53)
        (Stats.merge counterStats counterStats
          (statsWithTime Double.one) (statsWithTime Double.one)) with
      myTime := Double.add (Double.add Double.twoPow53 Double.one) Double.one } :=
  (Stats_merge_associative_counters counterStats counterStats
    (fun x y z => uint64_add_assoc x y z) (fun x y z => uint64_add_assoc x y z)
    (statsWithTime Double.twoPow53) (statsWithTime Double.one) (statsWithTime Double.one)).1

/-- C9: the `Stats` merge is a field-wise sum that leaves no field out: after
`a += b`, every field of `a` (`myTime`, `numFailed`, `numProbed`, `numVisited`,
`zeroDepthAssigns`, `origNumFreeVars`, `propData`, `conflStats`, `addedBin`,
`removedBin`) is its old value plus the same field of `b` (`double` addition
for `myTime`, addition modulo 2^64 for the counters, the nested `operator+=`
for `propData` and `conflStats`), `b` is unchanged, and the value returned is
`a` itself. -/
theorem Stats_plusEq_fieldwise_sum {α β : Type} (P : NestedStats α) (C : NestedStats β)
    (a b : Stats α β) :
    (Stats.plusEq P C ⟨a, b⟩).1.self =
      { myTime := Double.add a.myTime b.myTime
        numFailed := (a.numFailed + b.numFailed) % 2 ^ 64
        numProbed := (a.numProbed + b.numProbed) % 2 ^ 64
        numVisited := (a.numVisited + b.numVisited) % 2 ^ 64
        zeroDepthAssigns := (a.zeroDepthAssigns + b.zeroDepthAssigns) % 2 ^ 64
        origNumFreeVars := (a.origNumFreeVars + b.origNumFreeVars) % 2 ^ 64
        propData := P.plusEq a.propData b.propData
        conflStats := C.plusEq a.conflStats b.conflStats
        addedBin := (a.addedBin + b.addedBin) % 2 ^ 64
        removedBin := (a.removedBin + b.removedBin) % 2 ^ 64 } ∧
    (Stats.plusEq P C ⟨a, b⟩).1.other = b ∧
    (Stats.plusEq P C ⟨a, b⟩).2 = (Stats.plusEq P C ⟨a, b⟩).1.self := by
  exact ⟨rfl, rfl, rfl⟩

/-- C10: `Stats::clear()` is a full reset: whatever the state before, after
`clear()` the elapsed time and every counter are 0, the nested `propData` and
`conflStats` are default-constructed, the value equals a freshly constructed
`Stats`, and clearing twice equals clearing once. -/
theorem Stats_clear_full_reset {α β : Type} (P : NestedStats α) (C : NestedStats β)
    (s : Stats α β) :
    Stats.clear P C s = Stats.construct P C ∧
    (Stats.clear P C s).myTime = Double.zero ∧
    (Stats.clear P C s).numFailed = 0 ∧
    (Stats.clear P C s).numProbed = 0 ∧
    (Stats.clear P C s).numVisited = 0 ∧
    (Stats.clear P C s).zeroDepthAssigns = 0 ∧
    (Stats.clear P C s).origNumFreeVars = 0 ∧
    (Stats.clear P C s).propData = P.construct ∧
    (Stats.clear P C s).conflStats = C.construct ∧
    (Stats.clear P C s).addedBin = 0 ∧
    (Stats.clear P C s).removedBin = 0 ∧
    Stats.clear P C (Stats.clear P C s) = Stats.clear P C s := by
  exact ⟨rfl, rfl, rfl, rfl, rfl, rfl, rfl, rfl, rfl, rfl, rfl, rfl⟩

/-! ## Properties of the canonical `TwoLongXor` record -/

/-- C11: a `TwoLongXor` record built for two distinct variables holds the
canonical pair, smaller id first (`var[0] < var[1]`), so two records for the
same pair of variables and the same inversion flag compare equal under
`operator==` whatever order the two variables were observed in (and only for
the same inversion flag); `operator==` itself compares member by member, so
the two observation orders would differ without the canonical order. -/
theorem TwoLongXor_canonical_pair (v w : Nat) (inverted : Bool) (hvw : v ≠ w) :
    (TwoLongXor.canonical v w inverted).var0 < (TwoLongXor.canonical v w inverted).var1 ∧
    (TwoLongXor.canonical v w inverted).var0 = min v w ∧
    (TwoLongXor.canonical v w inverted).var1 = max v w ∧
    (TwoLongXor.canonical v w inverted).inverted = inverted ∧
    (TwoLongXor.canonical v w inverted).eq (TwoLongXor.canonical w v inverted) = true ∧
    TwoLongXor.canonical v w inverted = TwoLongXor.canonical w v inverted ∧
    (∀ other : Bool, (TwoLongXor.canonical v w inverted).eq (TwoLongXor.canonical w v other) = true
      ↔ inverted = other) ∧
    (TwoLongXor.mk v w inverted).eq (TwoLongXor.mk w v inverted) = false := by
  have hsym : TwoLongXor.canonical v w inverted = TwoLongXor.canonical w v inverted := by
    unfold TwoLongXor.canonical
    rcases Nat.lt_or_gt_of_ne hvw with h | h
    · have h1 : v ≤ w := by omega
      have h2 : ¬ w ≤ v := by omega
      simp [h1, h2]
    · have h1 : ¬ v ≤ w := by omega
      have h2 : w ≤ v := by omega
      simp [h1, h2]
  refine ⟨?_, ?_, ?_, rfl, ?_, hsym, ?_, ?_⟩
  · unfold TwoLongXor.canonical
    by_cases h : v ≤ w
    · simp only [if_pos h]; omega
    · simp only [if_neg h]; omega
  · unfold TwoLongXor.canonical
    by_cases h : v ≤ w
    · simp only [if_pos h]; omega
    · simp only [if_neg h]; omega
  · unfold TwoLongXor.canonical
    by_cases h : v ≤ w
    · simp only [if_pos h]; omega
    · simp only [if_neg h]; omega
  · rw [← hsym, TwoLongXor_eq_iff]
    exact ⟨rfl, rfl, rfl⟩
  · intro other
    rw [TwoLongXor_eq_iff]
    constructor
    · intro h
      exact h.2.2
    · intro h
      subst h
      rw [← hsym]
      exact ⟨rfl, rfl, rfl⟩
  · rw [← Bool.not_eq_true, TwoLongXor_eq_iff]
    intro h
    exact hvw h.1

theorem TwoLongXor_canonical_pair_witness :
    (5 : Nat) ≠ 3 ∧
    TwoLongXor.canonical 5 3 true = ⟨3, 5, true⟩ ∧
    TwoLongXor.canonical 3 5 true = ⟨3, 5, true⟩ ∧
    (TwoLongXor.canonical 5 3 true).var0 < (TwoLongXor.canonical 5 3 true).var1 ∧
    (TwoLongXor.canonical 5 3 true).eq (TwoLongXor.canonical 3 5 true) = true := by
  have h := TwoLongXor_canonical_pair 5 3 true (by decide)
  exact ⟨by decide, by decide, by decide, h.1, h.2.2.2.2.1⟩

/-! ## Properties of the probe driver -/

theorem Lit_neg_neg (l : Lit) : l.neg.neg = l := by
  unfold Lit.neg
  simp only [Nat.xor_assoc, Nat.xor_self, Nat.xor_zero]

theorem Lit_neg_mkLit (var : Nat) (sign : Bool) : (Lit.mkLit var sign).neg = Lit.mkLit var (!sign) := by
  unfold Lit.neg Lit.mkLit
  have e : ∀ b : Bool, var + var + boolToNat b = Nat.bit b var := by
    intro b
    cases b <;> simp [boolToNat, Nat.bit_val] <;> omega
  have e1 : (1 : Nat) = Nat.bit true 0 := by simp [Nat.bit_val]
  rw [e, e]
  congr 1
  rw [e1, Nat.xor_bit]
  cases sign <;> simp

theorem propagateAux_extends (fuel : Nat) (clauses : List (List Lit)) (trail : List Lit) :
    trail <+: (propagateAux fuel clauses trail).trail := by
  induction fuel generalizing trail with
  | zero =>
    unfold propagateAux
    split <;> exact List.prefix_refl _
  | succ n ih =>
    unfold propagateAux
    split
    · exact List.prefix_refl _
    · split
      · exact (List.prefix_append trail _).trans (ih _)
      · exact List.prefix_refl _

theorem propagate_extends (clauses : List (List Lit)) (trail : List Lit) :
    trail <+: (propagate clauses trail).trail :=
  propagateAux_extends _ _ _

theorem forcePermanent_extends (st : ProbeState) (l : Lit) :
    st.trail <+: (st.forcePermanent l).trail := by
  unfold ProbeState.forcePermanent
  split
  · exact List.prefix_refl _
  · split
    · exact List.prefix_refl _
    · split
      · exact List.prefix_refl _
      · have h := propagate_extends st.clauses (st.trail ++ [l])
        split <;> rename_i heq <;> rw [heq] at h <;>
          exact (List.prefix_append st.trail _).trans h

theorem forcePermanent_clauses (st : ProbeState) (l : Lit) :
    (st.forcePermanent l).clauses = st.clauses := by
  unfold ProbeState.forcePermanent
  split
  · rfl
  · split
    · rfl
    · split
      · rfl
      · split <;> rfl

theorem forcePermanent_mem (st : ProbeState) (l : Lit) (hok : st.ok = true)
    (hf : litFalse st.trail l = false) : l ∈ (st.forcePermanent l).trail := by
  unfold ProbeState.forcePermanent
  simp only [hok, hf, Bool.not_true, Bool.false_eq_true, if_false]
  split
  · rename_i ht
    unfold litTrue at ht
    simpa using ht
  · have h := propagate_extends st.clauses (st.trail ++ [l])
    have hl : l ∈ st.trail ++ [l] := by simp
    split <;> rename_i heq <;> rw [heq] at h <;> exact h.subset hl

theorem rollback_exact (st : ProbeState) (l : Lit) :
    ((st.tryAssign l).1.rollback st.mark).trail = st.trail := by
  unfold ProbeState.rollback ProbeState.tryAssign ProbeState.mark
  obtain ⟨ext, hext⟩ := propagate_extends st.clauses (st.trail ++ [l])
  simp only
  rw [← hext, List.append_assoc, List.take_left']
  rfl

theorem tryThis_done (st : ProbeState) (lit : Lit) (t : List Lit)
    (h : propagate st.clauses (st.trail ++ [lit]) = PropResult.done t) :
    tryThis st lit =
      ({ st with events := st.events ++ [ProbeEvent.probed lit] },
        some (t.drop (st.trail.length + 1))) := by
  have hr := rollback_exact { st with events := st.events ++ [ProbeEvent.probed lit] } lit
  unfold tryThis
  simp only [ProbeState.tryAssign, ProbeState.mark, ProbeState.rollback, h] at hr ⊢
  simp only [PropResult.trail] at hr ⊢
  rw [hr]

theorem tryThis_conflict (st : ProbeState) (lit : Lit) (c t : List Lit)
    (h : propagate st.clauses (st.trail ++ [lit]) = PropResult.conflict c t) :
    tryThis st lit =
      (ProbeState.forcePermanent
        { st with events := st.events ++ [ProbeEvent.probed lit, ProbeEvent.failed lit c] }
        lit.neg, none) := by
  have hr := rollback_exact { st with events := st.events ++ [ProbeEvent.probed lit] } lit
  unfold tryThis
  simp only [ProbeState.tryAssign, ProbeState.mark, ProbeState.rollback, h] at hr ⊢
  simp only [PropResult.trail] at hr ⊢
  rw [hr]
  simp only [List.append_assoc, List.singleton_append]

theorem tryThis_extends (st : ProbeState) (lit : Lit) :
    st.trail <+: (tryThis st lit).1.trail ∧ (tryThis st lit).1.clauses = st.clauses := by
  cases h : propagate st.clauses (st.trail ++ [lit]) with
  | conflict c t =>
    rw [tryThis_conflict st lit c t h]
    exact ⟨forcePermanent_extends
      { st with events := st.events ++ [ProbeEvent.probed lit, ProbeEvent.failed lit c] } lit.neg,
      forcePermanent_clauses _ _⟩
  | done t =>
    rw [tryThis_done st lit t h]
    exact ⟨List.prefix_refl _, rfl⟩

theorem foldl_forcePermanent_extends (ls : List Lit) (st : ProbeState) :
    st.trail <+: (ls.foldl ProbeState.forcePermanent st).trail := by
  induction ls generalizing st with
  | nil => exact List.prefix_refl _
  | cons l rest ih =>
    rw [List.foldl_cons]
    exact (forcePermanent_extends st l).trans (ih _)

theorem probeVar_extends (st : ProbeState) (var : Nat) :
    st.trail <+: (probeVar st var).trail := by
  unfold probeVar
  split
  · exact List.prefix_refl _
  · split
    · exact List.prefix_refl _
    · have h1 := (tryThis_extends st (Lit.mkLit var false)).1
      split
      · rename_i st1 heq
        rw [heq] at h1
        exact h1
      · rename_i st1 implPos heq
        rw [heq] at h1
        have h2 := (tryThis_extends st1 (Lit.mkLit var true)).1
        split
        · rename_i st2 heq2
          rw [heq2] at h2
          exact h1.trans h2
        · rename_i st2 implNeg heq2
          rw [heq2] at h2
          exact (h1.trans h2).trans (foldl_forcePermanent_extends _ _)

theorem search_extends (order : List Nat) (st : ProbeState) :
    st.trail <+: (search st order).1.trail := by
  unfold search
  simp only
  induction order generalizing st with
  | nil => exact List.prefix_refl _
  | cons v rest ih =>
    rw [List.foldl_cons]
    exact (probeVar_extends st v).trans (ih _)

theorem litTrue_append (trail : List Lit) (l k : Lit) (h : litTrue trail k = true) :
    litTrue (trail ++ [l]) k = true := by
  unfold litTrue at h ⊢
  simp only [List.contains_eq_any_beq, List.any_eq_true, List.mem_append] at h ⊢
  obtain ⟨x, hx, hb⟩ := h
  exact ⟨x, Or.inl hx, hb⟩

theorem unitLit_spec (trail c : List Lit) (l : Lit) (h : unitLit trail c = some l) :
    c.any (litTrue trail) = false ∧ l ∈ c := by
  unfold unitLit at h
  by_cases hs : c.any (litTrue trail) = true
  · simp [hs] at h
  · simp only [hs, Bool.false_eq_true, if_false] at h
    refine ⟨by simpa using hs, ?_⟩
    cases hf : c.filter (fun l => !litFalse trail l) with
    | nil => simp [hf] at h
    | cons a rest =>
      rw [hf] at h
      simp only at h
      by_cases hr : rest.all (fun k => k == a) = true
      · simp only [hr, if_true, Option.some.injEq] at h
        subst h
        have : a ∈ c.filter (fun l => !litFalse trail l) := by rw [hf]; simp
        exact (List.mem_filter.mp this).1
      · simp [hr] at h

theorem countP_lt_of_witness {α : Type} (p q : α → Bool) (L : List α)
    (hmono : ∀ x ∈ L, q x = true → p x = true)
    (hw : ∃ c ∈ L, p c = true ∧ q c = false) : L.countP q < L.countP p := by
  induction L with
  | nil => obtain ⟨c, hc, -⟩ := hw; simp at hc
  | cons a rest ih =>
    have hle : rest.countP q ≤ rest.countP p :=
      List.countP_mono_left (fun x hx => hmono x (List.mem_cons_of_mem _ hx))
    obtain ⟨c, hc, hpc, hqc⟩ := hw
    rcases List.mem_cons.mp hc with rfl | hin
    · rw [List.countP_cons_of_pos p rest hpc, List.countP_cons_of_neg q rest (by simp [hqc])]
      omega
    · have hlt := ih (fun x hx => hmono x (List.mem_cons_of_mem _ hx)) ⟨c, hin, hpc, hqc⟩
      by_cases hqa : q a = true
      · have hpa := hmono a (List.mem_cons_self _ _) hqa
        rw [List.countP_cons_of_pos p rest hpa, List.countP_cons_of_pos q rest hqa]
        omega
      · rw [List.countP_cons_of_neg q rest hqa]
        by_cases hpa : p a = true
        · rw [List.countP_cons_of_pos p rest hpa]
          omega
        · rw [List.countP_cons_of_neg p rest hpa]
          exact hlt

/-- Enough fuel: when the number of clauses without a true literal is at most
the fuel, a propagation that ends without conflict has reached a fixed point:
no clause is in conflict and no clause forces a literal. -/
theorem propagateAux_fixed_point (clauses : List (List Lit)) (fuel : Nat) (trail t : List Lit)
    (hfuel : clauses.countP (fun c => !c.any (litTrue trail)) ≤ fuel)
    (h : propagateAux fuel clauses trail = PropResult.done t) :
    ∀ c ∈ clauses, isConflict t c = false ∧ unitLit t c = none := by
  induction fuel generalizing trail with
  | zero =>
    unfold propagateAux at h
    cases hc : clauses.find? (isConflict trail) with
    | some c => simp [hc] at h
    | none =>
      simp only [hc, PropResult.done.injEq] at h
      subst h
      intro c hcm
      have h0 : clauses.countP (fun c => !c.any (litTrue trail)) = 0 := by omega
      rw [List.countP_eq_zero] at h0
      have hsat : c.any (litTrue trail) = true := by
        have := h0 c hcm
        simpa using this
      refine ⟨?_, ?_⟩
      · have := (List.find?_eq_none.mp hc) c hcm
        simpa using this
      · unfold unitLit
        simp [hsat]
  | succ n ih =>
    unfold propagateAux at h
    cases hc : clauses.find? (isConflict trail) with
    | some c => simp [hc] at h
    | none =>
      simp only [hc] at h
      cases hu : clauses.findSome? (unitLit trail) with
      | none =>
        simp only [hu, PropResult.done.injEq] at h
        subst h
        intro c hcm
        refine ⟨?_, (List.findSome?_eq_none_iff.mp hu) c hcm⟩
        have := (List.find?_eq_none.mp hc) c hcm
        simpa using this
      | some l =>
        simp only [hu] at h
        obtain ⟨c0, hc0, hunit⟩ := List.exists_of_findSome?_eq_some hu
        obtain ⟨hns, hl⟩ := unitLit_spec trail c0 l hunit
        have hlt : clauses.countP (fun c => !c.any (litTrue (trail ++ [l]))) <
            clauses.countP (fun c => !c.any (litTrue trail)) := by
          apply countP_lt_of_witness
          · intro x _ hx
            simp only [Bool.not_eq_true', List.any_eq_false] at hx ⊢
            intro k hk hkt
            exact hx k hk (litTrue_append trail l k hkt)
          · refine ⟨c0, hc0, by simp [hns], ?_⟩
            simp only [Bool.not_eq_false', List.any_eq_true]
            refine ⟨l, hl, ?_⟩
            unfold litTrue
            simp
        exact ih (trail ++ [l]) (by omega) h

/-- The propagation oracle is total and correct in its outcome: a reported
conflict is a clause of the store all of whose literals are false under the
reported trail, and otherwise the reported trail is a fixed point. -/
theorem propagate_outcome (clauses : List (List Lit)) (trail : List Lit) :
    (∀ c t, propagate clauses trail = PropResult.conflict c t →
      c ∈ clauses ∧ isConflict t c = true) ∧
    (∀ t, propagate clauses trail = PropResult.done t →
      ∀ c ∈ clauses, isConflict t c = false ∧ unitLit t c = none) := by
  refine ⟨?_, ?_⟩
  · unfold propagate
    generalize clauses.length = fuel
    induction fuel generalizing trail with
    | zero =>
      intro c t h
      unfold propagateAux at h
      cases hc : clauses.find? (isConflict trail) with
      | none => simp [hc] at h
      | some c1 =>
        simp only [hc, PropResult.conflict.injEq] at h
        obtain ⟨rfl, rfl⟩ := h
        exact ⟨List.mem_of_find?_eq_some hc, List.find?_some hc⟩
    | succ n ih =>
      intro c t h
      unfold propagateAux at h
      cases hc : clauses.find? (isConflict trail) with
      | some c1 =>
        simp only [hc, PropResult.conflict.injEq] at h
        obtain ⟨rfl, rfl⟩ := h
        exact ⟨List.mem_of_find?_eq_some hc, List.find?_some hc⟩
      | none =>
        simp only [hc] at h
        cases hu : clauses.findSome? (unitLit trail) with
        | none => simp [hu] at h
        | some l =>
          simp only [hu] at h
          exact ih _ c t h
  · intro t h
    exact propagateAux_fixed_point clauses clauses.length trail t (List.countP_le_length _) h

theorem tryThis_failed (st : ProbeState) (lit : Lit) (c t : List Lit) (hok : st.ok = true)
    (hfree : litTrue st.trail lit = false)
    (h : propagate st.clauses (st.trail ++ [lit]) = PropResult.conflict c t) :
    (tryThis st lit).2 = none ∧ lit.neg ∈ (tryThis st lit).1.trail := by
  rw [tryThis_conflict st lit c t h]
  refine ⟨rfl, ?_⟩
  apply forcePermanent_mem
    { st with events := st.events ++ [ProbeEvent.probed lit, ProbeEvent.failed lit c] } lit.neg hok
  unfold litFalse
  rw [Lit_neg_neg]
  exact hfree

theorem varFixed_false (trail : List Lit) (var : Nat) (h : varFixed trail var = false) :
    litTrue trail (Lit.mkLit var false) = false ∧ litTrue trail (Lit.mkLit var true) = false := by
  unfold varFixed at h
  simpa using h

theorem varFixed_of_mem (trail : List Lit) (var : Nat) (sign : Bool)
    (h : Lit.mkLit var sign ∈ trail) : varFixed trail var = true := by
  unfold varFixed litTrue
  cases sign <;> simp [h]

/-- C12: on the formula with binary clauses (¬x1 ∨ x2), (¬x1 ∨ x3),
(¬x2 ∨ ¬x3), with nothing assigned and the variables taken in the order x1, x2,
x3, propagating x1 = true forces x2 and x3 and conflicts with (¬x2 ∨ ¬x3);
`search()` probes x1 = true, finds that conflict, permanently forces x1 false
at the root scope (the root trail ends as just ¬x1), probes x2 and x3 without
further findings and reports the formula as still potentially satisfiable; a
later pass skips x1 as already fixed and leaves the root trail unchanged; in
each of the six orders of the three variables the pass ends with x1 forced
false and the same report. In general, for every solver state: whenever propagating a probed literal
conflicts, the probe hands back no implied set and the literal's negation is
on the root trail afterwards, for the positive and for the negative literal of
a probed variable, and the variable is then fixed; every literal on the root
trail stays on it through any later pass; and a variable that is fixed is
skipped. -/
theorem search_failed_literal_forced :
    propagate scenarioClauses [Lit.mkLit 1 false] =
      PropResult.conflict [Lit.mkLit 2 true, Lit.mkLit 3 true]
        [Lit.mkLit 1 false, Lit.mkLit 2 false, Lit.mkLit 3 false] ∧
    search scenarioState [1, 2, 3] =
      ({ clauses := scenarioClauses
         trail := [Lit.mkLit 1 true]
         ok := true
         events :=
           [ProbeEvent.probed (Lit.mkLit 1 false),
            ProbeEvent.failed (Lit.mkLit 1 false) [Lit.mkLit 2 true, Lit.mkLit 3 true],
            ProbeEvent.forced (Lit.mkLit 1 true),
            ProbeEvent.probed (Lit.mkLit 2 false), ProbeEvent.probed (Lit.mkLit 2 true),
            ProbeEvent.probed (Lit.mkLit 3 false), ProbeEvent.probed (Lit.mkLit 3 true)] },
       true) ∧
    search { (search scenarioState [1, 2, 3]).1 with events := [] } [1, 2, 3] =
      ({ clauses := scenarioClauses
         trail := [Lit.mkLit 1 true]
         ok := true
         events :=
           [ProbeEvent.skipped 1,
            ProbeEvent.probed (Lit.mkLit 2 false), ProbeEvent.probed (Lit.mkLit 2 true),
            ProbeEvent.probed (Lit.mkLit 3 false), ProbeEvent.probed (Lit.mkLit 3 true)] },
       true) ∧
    (∀ order ∈ [[1, 2, 3], [1, 3, 2], [2, 1, 3], [2, 3, 1], [3, 1, 2], [3, 2, 1]],
      (search scenarioState order).1.trail = [Lit.mkLit 1 true] ∧
      (search scenarioState order).2 = true) ∧
    (∀ (st : ProbeState) (lit : Lit) (c t : List Lit), st.ok = true →
      litTrue st.trail lit = false →
      propagate st.clauses (st.trail ++ [lit]) = PropResult.conflict c t →
      (tryThis st lit).2 = none ∧ lit.neg ∈ (tryThis st lit).1.trail) ∧
    (∀ (st : ProbeState) (var : Nat) (c t : List Lit), st.ok = true →
      varFixed st.trail var = false →
      propagate st.clauses (st.trail ++ [Lit.mkLit var false]) = PropResult.conflict c t →
      Lit.mkLit var true ∈ (probeVar st var).trail ∧
      varFixed (probeVar st var).trail var = true) ∧
    (∀ (st : ProbeState) (var : Nat) (c t u : List Lit), st.ok = true →
      varFixed st.trail var = false →
      propagate st.clauses (st.trail ++ [Lit.mkLit var false]) = PropResult.done u →
      propagate st.clauses (st.trail ++ [Lit.mkLit var true]) = PropResult.conflict c t →
      Lit.mkLit var false ∈ (probeVar st var).trail ∧
      varFixed (probeVar st var).trail var = true) ∧
    (∀ (st : ProbeState) (order : List Nat) (l : Lit), l ∈ st.trail →
      l ∈ (search st order).1.trail) ∧
    (∀ (st : ProbeState) (var : Nat), st.ok = true → varFixed st.trail var = true →
      probeVar st var = { st with events := st.events ++ [ProbeEvent.skipped var] }) := by
  refine ⟨by decide, by decide, by decide, by decide, ?_, ?_, ?_, ?_, ?_⟩
  · intro st lit c t hok hfree h
    exact tryThis_failed st lit c t hok hfree h
  · intro st var c t hok hfree h
    have hf := tryThis_failed st (Lit.mkLit var false) c t hok (varFixed_false _ _ hfree).1 h
    rw [Lit_neg_mkLit] at hf
    have hp : probeVar st var = (tryThis st (Lit.mkLit var false)).1 := by
      unfold probeVar
      simp only [hok, hfree, Bool.not_true, Bool.false_eq_true, if_false]
      split
      · rename_i heq
        rw [heq]
      · rename_i heq
        rw [heq] at hf
        exact absurd hf.1 (by simp)
    rw [hp]
    exact ⟨hf.2, varFixed_of_mem _ _ _ hf.2⟩
  · intro st var c t u hok hfree hpos hneg
    have hd := tryThis_done st (Lit.mkLit var false) u hpos
    have hf := tryThis_failed
      { st with events := st.events ++ [ProbeEvent.probed (Lit.mkLit var false)] }
      (Lit.mkLit var true) c t hok (varFixed_false _ _ hfree).2 hneg
    rw [Lit_neg_mkLit] at hf
    have hp : probeVar st var =
        (tryThis { st with events := st.events ++ [ProbeEvent.probed (Lit.mkLit var false)] }
          (Lit.mkLit var true)).1 := by
      have hf1 := hf.1
      unfold probeVar
      simp only [hok, hfree, Bool.not_true, Bool.false_eq_true, if_false, hd] at hf1 ⊢
      split
      · rename_i heq
        rw [heq]
      · rename_i heq
        rw [heq] at hf1
        exact absurd hf1 (by simp)
    rw [hp]
    exact ⟨hf.2, varFixed_of_mem _ _ _ hf.2⟩
  · intro st order l hl
    exact (search_extends order st).subset hl
  · intro st var hok hfix
    unfold probeVar
    simp [hok, hfix]

end CMSat
